import Mathlib

/-!
# The call protocol of the fluid demo host (fluids/move/Source.cpp)

Source.cpp is the display host of the fluid solver.  The solver itself is only
declared there (cudaInit, applyForce, computeField, cudaExit); what the file
fixes is the order and the arguments of the calls that main issues.  The
embedding below turns main into a function from what the environment supplies
(clock readings, the events delivered by pollEvent in each iteration of the main
loop, the values returned by rand) to the trace of solver calls.

Conventions of the embedding:
* float values are exact rationals; rounding of float arithmetic is not modelled.
  A float is below the double literal 0.3 (or 0.6) exactly when it is below 3/10
  (or 6/10), since no float lies between such a literal and the rational it names;
* the events of one iteration are the events that pollEvent returned before it
  returned false in that iteration;
* int coordinates are only copied, never computed with, so they are integers;
* what main does to the window (title, clear, draw, display) issues no solver call
  and is left out.
-/

namespace Fluids

/-! ## The program: constants, events, calls and main (Source.cpp) -/

/-- Line 16. -/
def WINDOW_WIDTH : Int := 1280

/-- Line 17. -/
def WINDOW_HEIGHT : Int := 720

/-- Line 19: 1.0f. -/
def VISCOSITY : ℚ := 1

/-- Line 20: 1.0f. -/
def DENSITY : ℚ := 1

/-- Reduction of a mathematical integer to the range of a 32-bit signed int. -/
def wrapInt32 (n : Int) : Int := (n + 2 ^ 31) % 2 ^ 32 - 2 ^ 31

/-- Product of two int values as a 32-bit int. -/
def mulInt32 (a b : Int) : Int := wrapInt32 (a * b)

/-- Conversion of an int to size_t (64 bits). -/
def toSizeT (n : Int) : Nat := (n % 2 ^ 64).toNat

/-- Mouse buttons of sf::Mouse::Button. -/
inductive Button where
  | Left | Right | Middle | XButton1 | XButton2
  deriving DecidableEq, Repr

/-- The sf::Event values main distinguishes; Other stands for every event type
main does not test for (keyboard, resize, focus, wheel, ...). -/
inductive Event where
  | Closed
  | MouseButtonPressed (button : Button) (x y : Int)
  | MouseButtonReleased (button : Button) (x y : Int)
  | MouseMoved (x y : Int)
  | Other
  deriving DecidableEq, Repr

/-- A heap block: where it starts and how many bytes it has. -/
structure Buffer where
  addr : Nat
  size : Nat
  deriving DecidableEq, Repr

/-- One call of a solver entry point, with its arguments. -/
inductive Call where
  | cudaInit (xSize ySize : Nat)
  | applyForce (x1 y1 x2 y2 r : Int) (R G B : ℚ)
  | computeField (result : Buffer) (dt viscosity density : ℚ)
  | cudaExit
  deriving DecidableEq, Repr

/-- One iteration of the main loop as the environment sees it: the clock reading
taken at its start and the events pollEvent delivers during it. -/
structure Frame where
  now : ℚ
  events : List Event

/-- Everything main obtains from outside that is not tied to an iteration. -/
structure Env where
  /-- Largest value rand can return. -/
  RAND_MAX : Nat
  /-- Value returned by the n-th call of rand (counted from 0). -/
  rand : Nat → Nat
  /-- Address returned by the new-expression of line 44. -/
  pixelsAddr : Nat
  /-- Whether the window is open once its constructor returns (line 36). -/
  created : Bool
  /-- Clock reading of line 38. -/
  now0 : ℚ
  /-- Clock reading of line 39. -/
  now1 : ℚ

/-- Lines 22-25: rand() / float(RAND_MAX), on the value rand returned. -/
def random (RAND_MAX randValue : Nat) : ℚ := (randValue : ℚ) / (RAND_MAX : ℚ)

/-- The local variables of main that the call trace depends on, together with
the open flag of the window and the number of rand calls made so far. -/
structure Locals where
  isOpen : Bool
  start : ℚ
  end_ : ℚ
  mousePos : Int × Int
  down : Bool
  frozen : Bool
  r : ℚ
  randCalls : Nat

/-- Line 44: the block of WINDOW_HEIGHT * WINDOW_WIDTH * 4 bytes, the product
being computed in int. -/
def pixels (env : Env) : Buffer :=
  { addr := env.pixelsAddr
    size := toSizeT (mulInt32 (mulInt32 WINDOW_HEIGHT WINDOW_WIDTH) 4) }

/-- Lines 61-62. -/
def onClosed (s : Locals) (event : Event) : Locals :=
  match event with
  | Event.Closed => { s with isOpen := false }
  | _ => s

/-- Lines 64-74. -/
def onPressed (env : Env) (s : Locals) (event : Event) : Locals :=
  match event with
  | Event.MouseButtonPressed button x y =>
    if button = Button.Left then
      { s with
        mousePos := (x, y)
        down := true
        r := random env.RAND_MAX (env.rand s.randCalls)
        randCalls := s.randCalls + 1 }
    else
      { s with frozen := !s.frozen }
  | _ => s

/-- Lines 75-79. -/
def onReleased (s : Locals) (event : Event) : Locals :=
  match event with
  | Event.MouseButtonReleased _ _ _ => { s with down := false }
  | _ => s

/-- Lines 80-91. -/
def onMoved (s : Locals) (event : Event) : Locals × List Call :=
  match event with
  | Event.MouseMoved x y =>
    if s.down then
      ({ s with mousePos := (x, y) },
        [if s.r < 3 / 10 then
          Call.applyForce s.mousePos.1 s.mousePos.2 x y 20 (1 / 4) (5 / 2) (1 / 4)
        else if s.r < 6 / 10 then
          Call.applyForce s.mousePos.1 s.mousePos.2 x y 20 1 (1 / 10) 1
        else
          Call.applyForce s.mousePos.1 s.mousePos.2 x y 20 (1 / 2) (1 / 2) (1 / 2)])
    else (s, [])
  | _ => (s, [])

/-- Lines 60-91: the body of the event loop for one polled event; the four
if-statements run one after the other.  Returns the new locals and the calls
issued. -/
def handleEvent (env : Env) (s : Locals) (event : Event) : Locals × List Call :=
  onMoved (onReleased (onPressed env (onClosed s event) event) event) event

/-- Lines 59-92: the event loop, over the events pollEvent delivers. -/
def pollEvents (env : Env) : Locals → List Event → Locals × List Call
  | s, [] => (s, [])
  | s, event :: rest =>
    ((pollEvents env (handleEvent env s event).1 rest).1,
      (handleEvent env s event).2 ++ (pollEvents env (handleEvent env s event).1 rest).2)

/-- Lines 52-58: the start of an iteration; diff is returned next to the locals. -/
def beginFrame (s : Locals) (now : ℚ) : Locals × ℚ :=
  ({ s with end_ := now, start := now, r := 0 }, now - s.start)

/-- Lines 93-95: the calls issued after the event loop. -/
def stepCalls (env : Env) (s : Locals) (diff : ℚ) : List Call :=
  if !s.frozen then [Call.computeField (pixels env) diff VISCOSITY DENSITY] else []

/-- Lines 52-101: one iteration of the main loop.  Returns the locals at its end
and the calls it issued, in order. -/
def frame (env : Env) (s : Locals) (f : Frame) : Locals × List Call :=
  ((pollEvents env (beginFrame s f.now).1 f.events).1,
    (pollEvents env (beginFrame s f.now).1 f.events).2 ++
      stepCalls env (pollEvents env (beginFrame s f.now).1 f.events).1 (beginFrame s f.now).2)

/-- Lines 50-102: the main loop.  An iteration runs only if the window is open
when the loop condition is tested.  Returns the locals reached and the calls of
each iteration that ran. -/
def mainLoop (env : Env) : Locals → List Frame → Locals × List (List Call)
  | s, [] => (s, [])
  | s, f :: rest =>
    if s.isOpen then
      ((mainLoop env (frame env s f).1 rest).1,
        (frame env s f).2 :: (mainLoop env (frame env s f).1 rest).2)
    else (s, [])

/-- Lines 36-49: the locals when the main loop is first reached. -/
def initLocals (env : Env) : Locals :=
  { isOpen := env.created
    start := env.now0
    end_ := env.now1
    mousePos := (0, 0)
    down := false
    frozen := false
    r := 0
    randCalls := 0 }

/-- What a run of main has done once the supplied iterations are used up. -/
structure Run where
  /-- The solver calls issued, in order. -/
  trace : List Call
  /-- Whether the main loop was left (and main returned). -/
  exited : Bool
  deriving DecidableEq

/-- Lines 32-106.  If the window is still open when the supplied iterations are
used up, the run is still inside the main loop and cudaExit has not been
called. -/
def main (env : Env) (frames : List Frame) : Run :=
  if (mainLoop env (initLocals env) frames).1.isOpen then
    { trace := Call.cudaInit (toSizeT WINDOW_WIDTH) (toSizeT WINDOW_HEIGHT) :: (mainLoop env (initLocals env) frames).2.flatten
      exited := false }
  else
    { trace := Call.cudaInit (toSizeT WINDOW_WIDTH) (toSizeT WINDOW_HEIGHT) :: (mainLoop env (initLocals env) frames).2.flatten
        ++ [Call.cudaExit]
      exited := true }

/-! ## Notions used to state the properties -/

def Call.isCudaInit : Call → Bool
  | Call.cudaInit _ _ => true
  | _ => false

def Call.isApplyForce : Call → Bool
  | Call.applyForce _ _ _ _ _ _ _ _ => true
  | _ => false

def Call.isComputeField : Call → Bool
  | Call.computeField _ _ _ _ => true
  | _ => false

def Call.isCudaExit : Call → Bool
  | Call.cudaExit => true
  | _ => false

/-- The locals of main when the loop condition is tested after the iterations
done have run. -/
def localsAfter (env : Env) (done : List Frame) : Locals :=
  (mainLoop env (initLocals env) done).1

/-- The calls issued by the iterations done, in order. -/
def callsOf (env : Env) (done : List Frame) : List Call :=
  (mainLoop env (initLocals env) done).2.flatten

/-- The locals of main inside the event loop: the iterations done have run, the
current iteration started at clock reading now, and the events seen have been
handled in it. -/
def localsAt (env : Env) (done : List Frame) (now : ℚ) (seen : List Event) : Locals :=
  (pollEvents env (beginFrame (localsAfter env done) now).1 seen).1

/-- The colour triple that lines 84-89 select for a value of r. -/
def colourFor (r : ℚ) : ℚ × ℚ × ℚ :=
  if r < 3 / 10 then (1 / 4, 5 / 2, 1 / 4)
  else if r < 6 / 10 then (1, 1 / 10, 1)
  else (1 / 2, 1 / 2, 1 / 2)

/-- The calls of each iteration of the main loop that ran, one list per
iteration. -/
def iterations (env : Env) (frames : List Frame) : List (List Call) :=
  (mainLoop env (initLocals env) frames).2

def Event.isLeftPress : Event → Bool
  | Event.MouseButtonPressed Button.Left _ _ => true
  | _ => false

def Event.isRelease : Event → Bool
  | Event.MouseButtonReleased _ _ _ => true
  | _ => false

/-- The coordinates an event carries if it is a left-button press or a mouse
move. -/
def Event.anchor : Event → Option (Int × Int)
  | Event.MouseButtonPressed Button.Left x y => some (x, y)
  | Event.MouseMoved x y => some (x, y)
  | _ => none

/-- All events polled once the iterations done have run and the current
iteration has polled seen, oldest first. -/
def history (done : List Frame) (seen : List Event) : List Event :=
  (done.map Frame.events).flatten ++ seen

/-- Whether the most recent event among the left-button presses and the button
releases of a sequence of events (oldest first) is a left-button press. -/
def dragActive (hist : List Event) : Bool :=
  match hist.reverse.find? (fun e => e.isLeftPress || e.isRelease) with
  | some e => e.isLeftPress
  | none => false

/-- The coordinates of the most recent left-button press or mouse move of a
sequence of events (oldest first). -/
def lastAnchor (hist : List Event) : Option (Int × Int) :=
  hist.reverse.findSome? Event.anchor

/-- The relation between the locals and the events polled so far that every
step of main keeps. -/
def DragInv (s : Locals) (hist : List Event) : Prop :=
  s.down = dragActive hist ∧ (s.down = true → lastAnchor hist = some s.mousePos)

def Event.isOtherPress : Event → Bool
  | Event.MouseButtonPressed Button.Left _ _ => false
  | Event.MouseButtonPressed _ _ _ => true
  | _ => false

/-- Whether a sequence of events holds an odd number of presses of a mouse
button other than the left one. -/
def frozenBy : List Event → Bool
  | [] => false
  | e :: rest => xor e.isOtherPress (frozenBy rest)

/-- The clock reading before the one of the next iteration: the reading of the
last iteration of done, or the reading of line 38 if no iteration has run. -/
def prevReading (env : Env) (done : List Frame) : ℚ :=
  ((done.map Frame.now).getLast?).getD env.now0

/-- An environment used for the concrete runs below. -/
def demoEnv : Env :=
  { RAND_MAX := 2147483647
    rand := fun _ => 0
    pixelsAddr := 4096
    created := true
    now0 := 0
    now1 := 0 }

/-- The property C3 asks of one call: if it is an applyForce call, each of its
three colour arguments lies in the closed interval from 0 to 1. -/
def Call.colourInUnit : Call → Prop
  | Call.applyForce _ _ _ _ _ R G B => 0 ≤ R ∧ R ≤ 1 ∧ 0 ≤ G ∧ G ≤ 1 ∧ 0 ≤ B ∧ B ≤ 1
  | _ => True

/-- The shape C5 asks of the calls of one iteration: applyForce calls only,
followed by nothing or by one computeField call. -/
def IterationShape (env : Env) (it : List Call) : Prop :=
  ∃ forces step, it = forces ++ step ∧ forces.all Call.isApplyForce = true ∧
    (step = [] ∨ ∃ dt, step = [Call.computeField (pixels env) dt VISCOSITY DENSITY])

/-! ## Facts about the loops -/

theorem pollEvents_append (env : Env) (s : Locals) (a b : List Event) :
    pollEvents env s (a ++ b) =
      ((pollEvents env (pollEvents env s a).1 b).1,
        (pollEvents env s a).2 ++ (pollEvents env (pollEvents env s a).1 b).2) := by
  induction a generalizing s with
  | nil => simp [pollEvents]
  | cons e es ih => simp [pollEvents, ih, List.append_assoc]

theorem mainLoop_append (env : Env) (s : Locals) (done rest : List Frame)
    (h : (mainLoop env s done).1.isOpen = true) :
    mainLoop env s (done ++ rest) =
      ((mainLoop env (mainLoop env s done).1 rest).1,
        (mainLoop env s done).2 ++ (mainLoop env (mainLoop env s done).1 rest).2) := by
  induction done generalizing s with
  | nil => simp [mainLoop]
  | cons f fs ih =>
    by_cases ho : s.isOpen = true
    · simp only [mainLoop, ho, if_true] at h
      simp [mainLoop, ho, ih _ h]
    · simp [mainLoop, ho] at h

theorem handleEvent_calls (env : Env) (s : Locals) (e : Event) :
    ∀ c ∈ (handleEvent env s e).2, c.isApplyForce = true := by
  intro c hc
  cases e <;> simp [handleEvent, onMoved] at hc
  split at hc
  · simp only [List.mem_singleton] at hc
    subst hc
    split_ifs <;> rfl
  · simp at hc

theorem pollEvents_calls (env : Env) (s : Locals) (evs : List Event) :
    ∀ c ∈ (pollEvents env s evs).2, c.isApplyForce = true := by
  induction evs generalizing s with
  | nil => simp [pollEvents]
  | cons e es ih =>
    intro c hc
    simp only [pollEvents, List.mem_append] at hc
    rcases hc with hc | hc
    · exact handleEvent_calls env s e c hc
    · exact ih _ c hc

theorem stepCalls_calls (env : Env) (s : Locals) (d : ℚ) :
    ∀ c ∈ stepCalls env s d, c.isComputeField = true := by
  intro c hc
  unfold stepCalls at hc
  split at hc
  · simp at hc
    subst hc
    rfl
  · simp at hc

theorem frame_calls (env : Env) (s : Locals) (f : Frame) :
    ∀ c ∈ (frame env s f).2, c.isCudaInit = false ∧ c.isCudaExit = false := by
  intro c hc
  simp only [frame, List.mem_append] at hc
  rcases hc with hc | hc
  · have := pollEvents_calls env _ _ c hc
    cases c <;> simp_all [Call.isApplyForce, Call.isCudaInit, Call.isCudaExit]
  · have := stepCalls_calls env _ _ c hc
    cases c <;> simp_all [Call.isComputeField, Call.isCudaInit, Call.isCudaExit]

theorem mainLoop_calls (env : Env) (s : Locals) (frames : List Frame) :
    ∀ c ∈ (mainLoop env s frames).2.flatten, c.isCudaInit = false ∧ c.isCudaExit = false := by
  induction frames generalizing s with
  | nil => simp [mainLoop]
  | cons f fs ih =>
    intro c hc
    by_cases ho : s.isOpen = true
    · simp only [mainLoop, ho, if_true, List.flatten_cons, List.mem_append] at hc
      rcases hc with hc | hc
      · exact frame_calls env s f c hc
      · exact ih _ c hc
    · simp [mainLoop, ho] at hc

theorem callsOf_calls (env : Env) (frames : List Frame) :
    ∀ c ∈ callsOf env frames, c.isCudaInit = false ∧ c.isCudaExit = false :=
  mainLoop_calls env _ frames

theorem main_exited (env : Env) (frames : List Frame) :
    (main env frames).exited = !(localsAfter env frames).isOpen := by
  unfold main localsAfter
  split <;> simp_all

theorem main_trace (env : Env) (frames : List Frame) :
    (main env frames).trace =
      Call.cudaInit 1280 720 :: callsOf env frames ++
        (if (main env frames).exited then [Call.cudaExit] else []) := by
  unfold main callsOf
  split <;> simp <;> exact ⟨rfl, rfl⟩

theorem handleEvent_isOpen_false (env : Env) (s : Locals) (e : Event)
    (h : s.isOpen = false) : (handleEvent env s e).1.isOpen = false := by
  cases e <;> simp [handleEvent, onMoved, onReleased, onPressed, onClosed, h]
  · split <;> simp [h]
  · split <;> simp [h]

theorem pollEvents_isOpen_false (env : Env) (s : Locals) (evs : List Event)
    (h : s.isOpen = false) : (pollEvents env s evs).1.isOpen = false := by
  induction evs generalizing s with
  | nil => simpa [pollEvents] using h
  | cons e es ih => simpa [pollEvents] using ih _ (handleEvent_isOpen_false env s e h)

theorem handleEvent_Closed (env : Env) (s : Locals) :
    handleEvent env s Event.Closed = ({ s with isOpen := false }, []) := by
  simp [handleEvent, onMoved, onReleased, onPressed, onClosed]

theorem mainLoop_closed (env : Env) (s : Locals) (frames : List Frame)
    (h : s.isOpen = false) : mainLoop env s frames = (s, []) := by
  cases frames <;> simp [mainLoop, h]

theorem mainLoop_closing (env : Env) (done later : List Frame) (f : Frame)
    (ho : (localsAfter env done).isOpen = true)
    (hc : (frame env (localsAfter env done) f).1.isOpen = false) :
    mainLoop env (initLocals env) (done ++ f :: later) =
      ((frame env (localsAfter env done) f).1,
        (mainLoop env (initLocals env) done).2 ++ [(frame env (localsAfter env done) f).2]) := by
  unfold localsAfter at ho hc
  rw [mainLoop_append env _ done _ ho]
  simp [mainLoop, ho, mainLoop_closed env _ later hc, localsAfter]

theorem callsOf_snoc (env : Env) (done : List Frame) (f : Frame)
    (ho : (localsAfter env done).isOpen = true) :
    callsOf env (done ++ [f]) = callsOf env done ++ (frame env (localsAfter env done) f).2 := by
  unfold localsAfter at ho
  unfold callsOf
  rw [mainLoop_append env _ done _ ho]
  simp [mainLoop, ho, localsAfter]

theorem localsAfter_snoc (env : Env) (done : List Frame) (f : Frame)
    (ho : (localsAfter env done).isOpen = true) :
    localsAfter env (done ++ [f]) = (frame env (localsAfter env done) f).1 := by
  unfold localsAfter at ho
  unfold localsAfter
  rw [mainLoop_append env _ done _ ho]
  simp [mainLoop, ho]

theorem handleEvent_moved (env : Env) (s : Locals) (x y : Int) :
    handleEvent env s (Event.MouseMoved x y) =
      if s.down then
        ({ s with mousePos := (x, y) },
          [Call.applyForce s.mousePos.1 s.mousePos.2 x y 20
            (colourFor s.r).1 (colourFor s.r).2.1 (colourFor s.r).2.2])
      else (s, []) := by
  simp only [handleEvent, onMoved, onReleased, onPressed, onClosed, colourFor]
  split_ifs <;> rfl

theorem handleEvent_not_moved (env : Env) (s : Locals) (e : Event)
    (h : ∀ x y, e ≠ Event.MouseMoved x y) : (handleEvent env s e).2 = [] := by
  cases e <;> simp_all [handleEvent, onMoved]

theorem handleEvent_call_form (env : Env) (s : Locals) (e : Event) (c : Call)
    (hc : c ∈ (handleEvent env s e).2) :
    ∃ x y, e = Event.MouseMoved x y ∧ s.down = true ∧
      c = Call.applyForce s.mousePos.1 s.mousePos.2 x y 20
        (colourFor s.r).1 (colourFor s.r).2.1 (colourFor s.r).2.2 := by
  cases e with
  | MouseMoved x y =>
    rw [handleEvent_moved] at hc
    split at hc
    · rename_i hd
      exact ⟨x, y, rfl, hd, by simpa using hc⟩
    · simp at hc
  | _ => simp [handleEvent, onMoved] at hc

theorem pollEvents_forall (env : Env) (P : Call → Prop)
    (hP : ∀ s e, ∀ c ∈ (handleEvent env s e).2, P c) (s : Locals) (evs : List Event) :
    ∀ c ∈ (pollEvents env s evs).2, P c := by
  induction evs generalizing s with
  | nil => simp [pollEvents]
  | cons e es ih =>
    intro c hc
    simp only [pollEvents, List.mem_append] at hc
    rcases hc with hc | hc
    · exact hP s e c hc
    · exact ih _ c hc

theorem callsOf_forall (env : Env) (P : Call → Prop)
    (hP : ∀ s e, ∀ c ∈ (handleEvent env s e).2, P c)
    (hQ : ∀ s d, ∀ c ∈ stepCalls env s d, P c) (frames : List Frame) :
    ∀ c ∈ callsOf env frames, P c := by
  unfold callsOf
  generalize initLocals env = s
  induction frames generalizing s with
  | nil => simp [mainLoop]
  | cons f fs ih =>
    intro c hc
    by_cases ho : s.isOpen = true
    · simp only [mainLoop, ho, if_true, List.flatten_cons, List.mem_append, frame] at hc
      rcases hc with (hc | hc) | hc
      · exact pollEvents_forall env P hP _ _ c hc
      · exact hQ _ _ c hc
      · exact ih _ c hc
    · simp [mainLoop, ho] at hc

theorem main_trace_mem (env : Env) (frames : List Frame) (c : Call)
    (hc : c ∈ (main env frames).trace) :
    c = Call.cudaInit 1280 720 ∨ c ∈ callsOf env frames ∨ c = Call.cudaExit := by
  rw [main_trace, List.mem_append, List.mem_cons] at hc
  rcases hc with (hc | hc) | hc
  · exact Or.inl hc
  · exact Or.inr (Or.inl hc)
  · cases hx : (main env frames).exited
    · simp [hx] at hc
    · rw [hx] at hc
      exact Or.inr (Or.inr (by simpa using hc))

theorem pixels_size (env : Env) : (pixels env).size = 3686400 := by
  show toSizeT (mulInt32 (mulInt32 WINDOW_HEIGHT WINDOW_WIDTH) 4) = 3686400
  decide

theorem callsOf_eq_flatten (env : Env) (frames : List Frame) :
    callsOf env frames = (iterations env frames).flatten := rfl

theorem cudaInit_mem_trace (env : Env) (frames : List Frame) (w h : Nat)
    (hm : Call.cudaInit w h ∈ (main env frames).trace) : w = 1280 ∧ h = 720 := by
  rcases main_trace_mem env frames _ hm with h1 | h1 | h1
  · injection h1 with hw hh
    exact ⟨hw, hh⟩
  · have := (callsOf_calls env frames _ h1).1
    simp [Call.isCudaInit] at this
  · cases h1

theorem computeField_mem_trace (env : Env) (frames : List Frame) (result : Buffer)
    (dt v d : ℚ) (hm : Call.computeField result dt v d ∈ (main env frames).trace) :
    result = pixels env ∧ v = VISCOSITY ∧ d = DENSITY := by
  have key : ∀ c ∈ callsOf env frames, ∀ result dt v d,
      c = Call.computeField result dt v d →
        result = pixels env ∧ v = VISCOSITY ∧ d = DENSITY := by
    apply callsOf_forall
    · intro s e c hc result dt v d heq
      have := handleEvent_calls env s e c hc
      subst heq
      simp [Call.isApplyForce] at this
    · intro s diff c hc result dt v d heq
      unfold stepCalls at hc
      split at hc
      · rw [List.mem_singleton] at hc
        rw [hc] at heq
        injection heq with h1 h2 h3 h4
        exact ⟨h1.symm, h3.symm, h4.symm⟩
      · simp at hc
  rcases main_trace_mem env frames _ hm with h1 | h1 | h1
  · cases h1
  · exact key _ h1 _ _ _ _ rfl
  · cases h1

theorem dragActive_snoc (hist : List Event) (e : Event) :
    dragActive (hist ++ [e]) =
      if e.isLeftPress then true else if e.isRelease then false else dragActive hist := by
  unfold dragActive
  rw [List.reverse_append, List.reverse_singleton, List.singleton_append, List.find?_cons]
  cases h1 : e.isLeftPress <;> cases h2 : e.isRelease <;> simp [h1]

theorem lastAnchor_snoc (hist : List Event) (e : Event) :
    lastAnchor (hist ++ [e]) =
      match e.anchor with
      | some a => some a
      | none => lastAnchor hist := by
  unfold lastAnchor
  rw [List.reverse_append, List.reverse_singleton, List.singleton_append, List.findSome?_cons]
  cases e.anchor <;> rfl

theorem lastAnchor_append_of_none (hist mid : List Event)
    (h : ∀ e ∈ mid, e.anchor = none) : lastAnchor (hist ++ mid) = lastAnchor hist := by
  induction mid using List.reverseRecOn with
  | nil => simp
  | append_singleton es e ih =>
    rw [← List.append_assoc, lastAnchor_snoc, h e (by simp)]
    exact ih (fun e he => h e (by simp [he]))

theorem dragActive_of_no_press (hist : List Event)
    (h : ∀ e ∈ hist, e.isLeftPress = false) : dragActive hist = false := by
  induction hist using List.reverseRecOn with
  | nil => rfl
  | append_singleton es e ih =>
    rw [dragActive_snoc, h e (by simp)]
    simp only [Bool.false_eq_true, if_false]
    split
    · rfl
    · exact ih (fun e he => h e (by simp [he]))

theorem dragActive_after_release (hist post : List Event) (e : Event)
    (he : e.isRelease = true) (h : ∀ e ∈ post, e.isLeftPress = false) :
    dragActive (hist ++ e :: post) = false := by
  induction post using List.reverseRecOn with
  | nil =>
    rw [dragActive_snoc, he]
    cases e <;> simp_all [Event.isRelease, Event.isLeftPress]
  | append_singleton es e1 ih =>
    rw [← List.cons_append, ← List.append_assoc, dragActive_snoc, h e1 (by simp)]
    simp only [Bool.false_eq_true, if_false]
    split
    · rfl
    · exact ih (fun e he => h e (by simp [he]))

theorem handleEvent_dragInv (env : Env) (s : Locals) (hist : List Event) (e : Event)
    (h : DragInv s hist) : DragInv (handleEvent env s e).1 (hist ++ [e]) := by
  obtain ⟨h1, h2⟩ := h
  unfold DragInv
  rw [dragActive_snoc, lastAnchor_snoc]
  cases e with
  | Closed =>
    simpa [handleEvent, onMoved, onReleased, onPressed, onClosed, Event.isLeftPress,
      Event.isRelease, Event.anchor] using ⟨h1, h2⟩
  | MouseButtonPressed b x y =>
    cases b
    · simp [handleEvent, onMoved, onReleased, onPressed, onClosed, Event.isLeftPress,
        Event.isRelease, Event.anchor]
    all_goals
      simpa [handleEvent, onMoved, onReleased, onPressed, onClosed, Event.isLeftPress,
        Event.isRelease, Event.anchor] using ⟨h1, h2⟩
  | MouseButtonReleased b x y =>
    simp [handleEvent, onMoved, onReleased, onPressed, onClosed, Event.isLeftPress,
      Event.isRelease, Event.anchor]
  | MouseMoved x y =>
    rw [handleEvent_moved]
    cases hd : s.down
    · simpa [Event.isLeftPress, Event.isRelease, Event.anchor, hd] using h1
    · simpa [Event.isLeftPress, Event.isRelease, Event.anchor, hd] using h1
  | Other =>
    simpa [handleEvent, onMoved, onReleased, onPressed, onClosed, Event.isLeftPress,
      Event.isRelease, Event.anchor] using ⟨h1, h2⟩

theorem pollEvents_dragInv (env : Env) (s : Locals) (hist evs : List Event)
    (h : DragInv s hist) : DragInv (pollEvents env s evs).1 (hist ++ evs) := by
  induction evs generalizing s hist with
  | nil => simpa [pollEvents] using h
  | cons e es ih =>
    have := ih _ _ (handleEvent_dragInv env s hist e h)
    simpa [pollEvents] using this

theorem mainLoop_dragInv (env : Env) (s : Locals) (hist : List Event) (frames : List Frame)
    (h : DragInv s hist) (ho : (mainLoop env s frames).1.isOpen = true) :
    DragInv (mainLoop env s frames).1 (hist ++ (frames.map Frame.events).flatten) := by
  induction frames generalizing s hist with
  | nil => simpa [mainLoop] using h
  | cons f fs ih =>
    by_cases hs : s.isOpen = true
    · simp only [mainLoop, hs, if_true] at ho ⊢
      have hb : DragInv (beginFrame s f.now).1 hist := h
      have := ih _ _ (pollEvents_dragInv env _ hist f.events hb) ho
      simpa [frame, List.append_assoc] using this
    · simp [mainLoop, hs] at ho

theorem localsAt_dragInv (env : Env) (done : List Frame) (now : ℚ) (seen : List Event)
    (ho : (localsAfter env done).isOpen = true) :
    DragInv (localsAt env done now seen) (history done seen) := by
  have h0 : DragInv (initLocals env) [] := ⟨rfl, by simp [initLocals]⟩
  have h1 := mainLoop_dragInv env _ [] done h0 ho
  have h2 : DragInv (beginFrame (localsAfter env done) now).1
      ((done.map Frame.events).flatten) := by simpa [localsAfter] using h1
  exact pollEvents_dragInv env _ _ seen h2

/-- The calls of an iteration split at one of its events: those of the events
before it, those of the event itself (handled from the locals localsAt gives),
those of the events after it, and the step. -/
theorem frame_calls_at_event (env : Env) (done : List Frame) (now : ℚ)
    (seen rest : List Event) (e : Event) :
    (frame env (localsAfter env done) { now := now, events := seen ++ e :: rest }).2 =
      (pollEvents env (beginFrame (localsAfter env done) now).1 seen).2
        ++ (handleEvent env (localsAt env done now seen) e).2
        ++ (pollEvents env (localsAt env done now (seen ++ [e])) rest).2
        ++ stepCalls env (localsAt env done now (seen ++ e :: rest))
            (now - (localsAfter env done).start) := by
  simp [frame, localsAt, pollEvents_append, pollEvents, beginFrame]

theorem handleEvent_r (env : Env) (s : Locals) (e : Event) (h : e.isLeftPress = false) :
    (handleEvent env s e).1.r = s.r := by
  cases e with
  | MouseButtonPressed b x y =>
    cases b <;> simp_all [handleEvent, onMoved, onReleased, onPressed, onClosed,
      Event.isLeftPress]
  | MouseMoved x y =>
    rw [handleEvent_moved]
    split <;> rfl
  | _ => simp [handleEvent, onMoved, onReleased, onPressed, onClosed]

theorem pollEvents_r (env : Env) (s : Locals) (evs : List Event)
    (h : ∀ e ∈ evs, e.isLeftPress = false) : (pollEvents env s evs).1.r = s.r := by
  induction evs generalizing s with
  | nil => rfl
  | cons e es ih =>
    simp only [pollEvents]
    rw [ih _ (fun e1 h1 => h e1 (by simp [h1])), handleEvent_r env s e (h e (by simp))]

theorem pollEvents_r_drawn (env : Env) (s : Locals) (evs : List Event) :
    (pollEvents env s evs).1.r = s.r ∨
      ((∃ e ∈ evs, e.isLeftPress = true) ∧
        ∃ n, (pollEvents env s evs).1.r = random env.RAND_MAX (env.rand n)) := by
  induction evs generalizing s with
  | nil => exact Or.inl rfl
  | cons e es ih =>
    simp only [pollEvents]
    rcases ih (handleEvent env s e).1 with h1 | ⟨⟨e1, he1, hp⟩, n, hn⟩
    · cases hl : e.isLeftPress
      · exact Or.inl (by rw [h1, handleEvent_r env s e hl])
      · refine Or.inr ⟨⟨e, by simp, hl⟩, s.randCalls, ?_⟩
        rw [h1]
        cases e with
        | MouseButtonPressed b x y =>
          cases b <;> simp_all [handleEvent, onMoved, onReleased, onPressed, onClosed,
            Event.isLeftPress]
        | _ => simp [Event.isLeftPress] at hl
    · exact Or.inr ⟨⟨e1, by simp [he1], hp⟩, n, hn⟩

theorem frozenBy_append (a b : List Event) :
    frozenBy (a ++ b) = xor (frozenBy a) (frozenBy b) := by
  induction a with
  | nil => simp [frozenBy]
  | cons e es ih => simp [frozenBy, ih, Bool.xor_assoc]

theorem handleEvent_frozen (env : Env) (s : Locals) (e : Event) :
    (handleEvent env s e).1.frozen = xor s.frozen e.isOtherPress := by
  cases e with
  | MouseButtonPressed b x y =>
    cases b <;> simp [handleEvent, onMoved, onReleased, onPressed, onClosed,
      Event.isOtherPress]
  | MouseMoved x y =>
    rw [handleEvent_moved]
    split <;> simp [Event.isOtherPress]
  | _ => simp [handleEvent, onMoved, onReleased, onPressed, onClosed, Event.isOtherPress]

theorem pollEvents_frozen (env : Env) (s : Locals) (evs : List Event) :
    (pollEvents env s evs).1.frozen = xor s.frozen (frozenBy evs) := by
  induction evs generalizing s with
  | nil => simp [pollEvents, frozenBy]
  | cons e es ih => simp [pollEvents, frozenBy, ih, handleEvent_frozen, Bool.xor_assoc]

theorem mainLoop_frozen (env : Env) (s : Locals) (frames : List Frame)
    (ho : (mainLoop env s frames).1.isOpen = true) :
    (mainLoop env s frames).1.frozen =
      xor s.frozen (frozenBy (frames.map Frame.events).flatten) := by
  induction frames generalizing s with
  | nil => simp [mainLoop, frozenBy]
  | cons f fs ih =>
    by_cases hs : s.isOpen = true
    · simp only [mainLoop, hs, if_true] at ho ⊢
      rw [ih _ ho]
      simp [frame, pollEvents_frozen, beginFrame, frozenBy_append, Bool.xor_assoc]
    · simp [mainLoop, hs] at ho

theorem handleEvent_start (env : Env) (s : Locals) (e : Event) :
    (handleEvent env s e).1.start = s.start := by
  cases e with
  | MouseButtonPressed b x y =>
    cases b <;> simp [handleEvent, onMoved, onReleased, onPressed, onClosed]
  | MouseMoved x y =>
    rw [handleEvent_moved]
    split <;> rfl
  | _ => simp [handleEvent, onMoved, onReleased, onPressed, onClosed]

theorem pollEvents_start (env : Env) (s : Locals) (evs : List Event) :
    (pollEvents env s evs).1.start = s.start := by
  induction evs generalizing s with
  | nil => rfl
  | cons e es ih => simp [pollEvents, ih, handleEvent_start]

theorem mainLoop_start (env : Env) (s : Locals) (frames : List Frame)
    (ho : (mainLoop env s frames).1.isOpen = true) :
    (mainLoop env s frames).1.start = ((frames.map Frame.now).getLast?).getD s.start := by
  induction frames generalizing s with
  | nil => simp [mainLoop]
  | cons f fs ih =>
    by_cases hs : s.isOpen = true
    · simp only [mainLoop, hs, if_true] at ho ⊢
      rw [ih _ ho]
      cases fs with
      | nil => simp [frame, pollEvents_start, beginFrame]
      | cons g gs => simp [List.getLast?_cons]
    · simp [mainLoop, hs] at ho

theorem localsAfter_start (env : Env) (done : List Frame)
    (ho : (localsAfter env done).isOpen = true) :
    (localsAfter env done).start = prevReading env done :=
  mainLoop_start env _ done ho

theorem iterations_snoc (env : Env) (done : List Frame) (f : Frame)
    (ho : (localsAfter env done).isOpen = true) :
    iterations env (done ++ [f]) =
      iterations env done ++ [(frame env (localsAfter env done) f).2] := by
  unfold localsAfter at ho
  unfold iterations
  rw [mainLoop_append env _ done _ ho]
  simp [mainLoop, ho, localsAfter]

theorem frame_step_filter (env : Env) (s : Locals) (f : Frame) :
    (frame env s f).2.filter Call.isComputeField =
      if (frame env s f).1.frozen then []
      else [Call.computeField (pixels env) (f.now - s.start) VISCOSITY DENSITY] := by
  have h : (pollEvents env (beginFrame s f.now).1 f.events).2.filter Call.isComputeField
      = [] := by
    rw [List.filter_eq_nil_iff]
    intro c hc
    have := pollEvents_calls env _ _ c hc
    cases c <;> simp_all [Call.isApplyForce, Call.isComputeField]
  simp only [frame, List.filter_append, h, List.nil_append, stepCalls]
  have hb : (beginFrame s f.now).2 = f.now - s.start := rfl
  rw [hb]
  by_cases hfz : (pollEvents env (beginFrame s f.now).1 f.events).1.frozen = true
  · rw [if_pos hfz, if_neg (by simp [hfz])]
    rfl
  · rw [if_neg hfz, if_pos (by simpa using hfz)]
    rfl

/-- The trace of a run whose last supplied iteration polls seen, then e, then
rest: the calls of the earlier iterations, then those of the last one split as in
frame_calls_at_event.  This is how the locals given by localsAt enter the trace
of main. -/
theorem main_trace_at_event (env : Env) (done : List Frame) (now : ℚ)
    (seen rest : List Event) (e : Event) (ho : (localsAfter env done).isOpen = true) :
    (main env (done ++ [{ now := now, events := seen ++ e :: rest }])).trace =
      Call.cudaInit 1280 720 :: callsOf env done
        ++ (pollEvents env (beginFrame (localsAfter env done) now).1 seen).2
        ++ (handleEvent env (localsAt env done now seen) e).2
        ++ (pollEvents env (localsAt env done now (seen ++ [e])) rest).2
        ++ stepCalls env (localsAt env done now (seen ++ e :: rest))
            (now - (localsAfter env done).start)
        ++ (if (main env (done ++ [{ now := now, events := seen ++ e :: rest }])).exited
            then [Call.cudaExit] else []) := by
  rw [main_trace, callsOf_snoc env done _ ho, frame_calls_at_event]
  simp [List.append_assoc]

/-! ## The properties -/

/-- C1: whatever the environment supplies, the trace of main starts with the call
cudaInit(1280, 720), so that call precedes every applyForce and computeField
call, and no later call of the trace is a cudaInit call. -/
theorem cudaInit_first_and_once (env : Env) (frames : List Frame) :
    ∃ rest, (main env frames).trace = Call.cudaInit 1280 720 :: rest ∧
      rest.all (fun c => !c.isCudaInit) = true := by
  refine ⟨callsOf env frames ++ (if (main env frames).exited then [Call.cudaExit] else []),
    main_trace env frames, ?_⟩
  simp only [List.all_eq_true, List.mem_append]
  intro c hc
  rcases hc with hc | hc
  · simp [(callsOf_calls env frames c hc).1]
  · split at hc
    · rw [List.mem_singleton] at hc
      subst hc
      rfl
    · simp at hc

/-- C2: when the main loop is left, the trace ends with a cudaExit call and no
earlier call of the trace is a cudaExit call (so no applyForce or computeField
call follows it).  Moreover, if the iteration that closes the window polls the
events before, then Closed, then after, the calls of all of them and the
computeField call of that iteration stand in the trace before cudaExit. -/
theorem cudaExit_last_and_once (env : Env) (frames : List Frame)
    (h : (main env frames).exited = true) :
    (∃ body, (main env frames).trace = body ++ [Call.cudaExit] ∧
      body.all (fun c => !c.isCudaExit) = true) ∧
    (∀ done now before after later,
      frames = done ++ { now := now, events := before ++ Event.Closed :: after } :: later →
      (localsAfter env done).isOpen = true →
      (main env frames).trace =
        Call.cudaInit 1280 720 :: callsOf env done
          ++ (pollEvents env (beginFrame (localsAfter env done) now).1 before).2
          ++ (pollEvents env (localsAt env done now (before ++ [Event.Closed])) after).2
          ++ stepCalls env (localsAt env done now (before ++ Event.Closed :: after))
              (now - (localsAfter env done).start)
          ++ [Call.cudaExit]) := by
  constructor
  · refine ⟨Call.cudaInit 1280 720 :: callsOf env frames, ?_, ?_⟩
    · rw [main_trace, h]
      simp
    · simp only [List.all_eq_true, List.mem_cons]
      intro c hc
      rcases hc with hc | hc
      · subst hc
        rfl
      · simp [(callsOf_calls env frames c hc).2]
  · intro done now before after later hf ho
    have hclosed : (frame env (localsAfter env done)
        { now := now, events := before ++ Event.Closed :: after }).1.isOpen = false := by
      simp only [frame, pollEvents_append, pollEvents, handleEvent_Closed]
      exact pollEvents_isOpen_false env _ after rfl
    rw [main_trace, h, hf]
    unfold callsOf
    rw [mainLoop_closing env done later _ ho hclosed]
    simp [frame, localsAt, pollEvents_append, pollEvents, handleEvent_Closed, beginFrame]

/-- A run in which the closing iteration still polls a press and a move after
Closed: their applyForce call and the computeField call precede cudaExit. -/
theorem cudaExit_last_and_once_witness :
    (main demoEnv
      [{ now := 1, events := [Event.Closed, Event.MouseButtonPressed Button.Left 3 4,
          Event.MouseMoved 5 6] },
        { now := 2, events := [Event.MouseMoved 7 8] }]).trace =
      [Call.cudaInit 1280 720,
        Call.applyForce 3 4 5 6 20 (1 / 4) (5 / 2) (1 / 4),
        Call.computeField { addr := 4096, size := 3686400 } 1 1 1,
        Call.cudaExit] ∧
    ∃ body, (main demoEnv
      [{ now := 1, events := [Event.Closed, Event.MouseButtonPressed Button.Left 3 4,
          Event.MouseMoved 5 6] },
        { now := 2, events := [Event.MouseMoved 7 8] }]).trace = body ++ [Call.cudaExit] ∧
      body.all (fun c => !c.isCudaExit) = true :=
  ⟨by simp [main, mainLoop, frame, pollEvents, handleEvent, onMoved, onReleased, onPressed,
      onClosed, beginFrame, stepCalls, initLocals, demoEnv, random, pixels, toSizeT, mulInt32,
      wrapInt32, WINDOW_WIDTH, WINDOW_HEIGHT, VISCOSITY, DENSITY],
    (cudaExit_last_and_once demoEnv _ (by decide)).1⟩

/-- C3 as stated fails: a left press followed by a move, with rand returning 0,
makes main call applyForce with G = 2.5. -/
theorem colour_in_unit_counterexample :
    Call.applyForce 10 10 20 20 20 (1 / 4) (5 / 2) (1 / 4) ∈
        (main demoEnv [{ now := 1, events :=
          [Event.MouseButtonPressed Button.Left 10 10, Event.MouseMoved 20 20] }]).trace ∧
      ¬ ∀ c ∈ (main demoEnv [{ now := 1, events :=
          [Event.MouseButtonPressed Button.Left 10 10, Event.MouseMoved 20 20] }]).trace,
        c.colourInUnit := by
  have hmem : Call.applyForce 10 10 20 20 20 (1 / 4) (5 / 2) (1 / 4) ∈
      (main demoEnv [{ now := 1, events :=
        [Event.MouseButtonPressed Button.Left 10 10, Event.MouseMoved 20 20] }]).trace := by
    simp [main, mainLoop, frame, pollEvents, handleEvent, onMoved, onReleased, onPressed,
      onClosed, beginFrame, stepCalls, initLocals, demoEnv, random]
  refine ⟨hmem, fun h => ?_⟩
  have h1 := h _ hmem
  simp only [Call.colourInUnit] at h1
  norm_num at h1

/-- C3, amended: every applyForce call in a trace of main carries one of the three
colour triples (0.25, 2.5, 0.25), (1.0, 0.1, 1.0), (0.5, 0.5, 0.5); hence R and B
lie between 0 and 1 and G lies between 0 and 2.5. -/
theorem colour_bounds (env : Env) (frames : List Frame) (x1 y1 x2 y2 r : Int) (R G B : ℚ)
    (h : Call.applyForce x1 y1 x2 y2 r R G B ∈ (main env frames).trace) :
    ((R, G, B) = (1 / 4, 5 / 2, 1 / 4) ∨ (R, G, B) = (1, 1 / 10, 1) ∨
        (R, G, B) = (1 / 2, 1 / 2, 1 / 2)) ∧
      (0 ≤ R ∧ R ≤ 1) ∧ (0 ≤ G ∧ G ≤ 5 / 2) ∧ (0 ≤ B ∧ B ≤ 1) := by
  have key : ∀ c ∈ callsOf env frames, ∀ x1 y1 x2 y2 r R G B,
      c = Call.applyForce x1 y1 x2 y2 r R G B →
      ((R, G, B) = (1 / 4, 5 / 2, 1 / 4) ∨ (R, G, B) = (1, 1 / 10, 1) ∨
        (R, G, B) = (1 / 2, 1 / 2, 1 / 2)) := by
    apply callsOf_forall
    · intro s e c hc x1 y1 x2 y2 r R G B heq
      obtain ⟨x, y, -, -, hform⟩ := handleEvent_call_form env s e c hc
      rw [hform] at heq
      injection heq with _ _ _ _ _ hR hG hB
      subst hR hG hB
      unfold colourFor
      split_ifs <;> simp
    · intro s d c hc x1 y1 x2 y2 r R G B heq
      have := stepCalls_calls env s d c hc
      subst heq
      simp [Call.isComputeField] at this
  have hset : (R, G, B) = (1 / 4, 5 / 2, 1 / 4) ∨ (R, G, B) = (1, 1 / 10, 1) ∨
      (R, G, B) = (1 / 2, 1 / 2, 1 / 2) := by
    rcases main_trace_mem env frames _ h with h1 | h1 | h1
    · cases h1
    · exact key _ h1 _ _ _ _ _ _ _ _ rfl
    · cases h1
  refine ⟨hset, ?_⟩
  rcases hset with h1 | h1 | h1 <;>
    · simp only [Prod.mk.injEq] at h1
      obtain ⟨hR, hG, hB⟩ := h1
      subst hR hG hB
      norm_num

/-- The amended bound at the call of the counterexample run. -/
theorem colour_bounds_witness :
    (((1 / 4 : ℚ), (5 / 2 : ℚ), (1 / 4 : ℚ)) = (1 / 4, 5 / 2, 1 / 4) ∨
        ((1 / 4 : ℚ), (5 / 2 : ℚ), (1 / 4 : ℚ)) = (1, 1 / 10, 1) ∨
        ((1 / 4 : ℚ), (5 / 2 : ℚ), (1 / 4 : ℚ)) = (1 / 2, 1 / 2, 1 / 2)) ∧
      (0 ≤ (1 / 4 : ℚ) ∧ (1 / 4 : ℚ) ≤ 1) ∧ (0 ≤ (5 / 2 : ℚ) ∧ (5 / 2 : ℚ) ≤ 5 / 2) ∧
      (0 ≤ (1 / 4 : ℚ) ∧ (1 / 4 : ℚ) ≤ 1) :=
  (colour_bounds demoEnv
    [{ now := 1, events :=
      [Event.MouseButtonPressed Button.Left 10 10, Event.MouseMoved 20 20] }]
    10 10 20 20 20 (1 / 4) (5 / 2) (1 / 4)
    (by simp [main, mainLoop, frame, pollEvents, handleEvent, onMoved, onReleased, onPressed,
      onClosed, beginFrame, stepCalls, initLocals, demoEnv, random]))

/-- C4: the int product WINDOW_HEIGHT * WINDOW_WIDTH * 4 does not leave the range
of a 32-bit int at either multiplication, the block allocated for pixels has
3686400 bytes, and every computeField call of a trace of main is given that one
block, whose size is 4 times the product of the two arguments of the cudaInit
call of the trace (1280 and 720). -/
theorem pixel_buffer_size (env : Env) (frames : List Frame) :
    (mulInt32 WINDOW_HEIGHT WINDOW_WIDTH = WINDOW_HEIGHT * WINDOW_WIDTH ∧
      mulInt32 (mulInt32 WINDOW_HEIGHT WINDOW_WIDTH) 4 = WINDOW_HEIGHT * WINDOW_WIDTH * 4 ∧
      WINDOW_HEIGHT * WINDOW_WIDTH * 4 < 2 ^ 31) ∧
    (pixels env).size = 3686400 ∧
    ∀ w h result dt v d,
      Call.cudaInit w h ∈ (main env frames).trace →
      Call.computeField result dt v d ∈ (main env frames).trace →
        w = 1280 ∧ h = 720 ∧ result = pixels env ∧ result.size = w * h * 4 := by
  refine ⟨⟨by decide, by decide, by decide⟩, pixels_size env, ?_⟩
  intro w h result dt v d hi hc
  obtain ⟨hw, hh⟩ := cudaInit_mem_trace env frames w h hi
  obtain ⟨hr, -, -⟩ := computeField_mem_trace env frames result dt v d hc
  subst hw hh hr
  exact ⟨rfl, rfl, rfl, pixels_size env⟩

/-- The buffer facts on a run of two iterations. -/
theorem pixel_buffer_size_witness :
    (1280 = 1280 ∧ 720 = 720 ∧
      ({ addr := 4096, size := 3686400 } : Buffer) = pixels demoEnv ∧
      ({ addr := 4096, size := 3686400 } : Buffer).size = 1280 * 720 * 4) :=
  (pixel_buffer_size demoEnv
    [{ now := 1, events := [] }, { now := 3, events := [Event.Closed] }]).2.2
    1280 720 { addr := 4096, size := 3686400 } 2 1 1
    (by simp [main, mainLoop, frame, pollEvents, handleEvent, onMoved, onReleased, onPressed,
      onClosed, beginFrame, stepCalls, initLocals, demoEnv, toSizeT, WINDOW_WIDTH,
      WINDOW_HEIGHT])
    (by simp [main, mainLoop, frame, pollEvents, handleEvent, onMoved, onReleased, onPressed,
      onClosed, beginFrame, stepCalls, initLocals, demoEnv, pixels, toSizeT, mulInt32,
      wrapInt32, WINDOW_WIDTH, WINDOW_HEIGHT, VISCOSITY, DENSITY]; norm_num)

/-- C5: the trace of main is the cudaInit call, then the calls of the iterations
that ran, one iteration after the other, then cudaExit if the loop was left; and
the calls of each iteration are applyForce calls followed by at most one
computeField call, so within an iteration no applyForce call comes after the
computeField call. -/
theorem frame_forces_before_step (env : Env) (frames : List Frame) :
    (main env frames).trace =
        Call.cudaInit 1280 720 :: (iterations env frames).flatten ++
          (if (main env frames).exited then [Call.cudaExit] else []) ∧
      ∀ it ∈ iterations env frames, IterationShape env it := by
  refine ⟨main_trace env frames, ?_⟩
  unfold iterations
  generalize initLocals env = s
  induction frames generalizing s with
  | nil => simp [mainLoop]
  | cons f fs ih =>
    intro it hit
    by_cases ho : s.isOpen = true
    · simp only [mainLoop, ho, if_true, List.mem_cons] at hit
      rcases hit with hit | hit
      · subst hit
        refine ⟨_, _, rfl, ?_, ?_⟩
        · rw [List.all_eq_true]
          exact pollEvents_calls env _ _
        · unfold stepCalls
          split
          · exact Or.inr ⟨_, rfl⟩
          · exact Or.inl rfl
      · exact ih _ it hit
    · simp [mainLoop, ho] at hit

/-- The shape at the one iteration of a run with a drag of two moves. -/
theorem frame_forces_before_step_witness :
    iterations demoEnv [{ now := 1, events := [Event.MouseButtonPressed Button.Left 1 2,
        Event.MouseMoved 3 4, Event.MouseMoved 5 6] }] =
      [[Call.applyForce 1 2 3 4 20 (1 / 4) (5 / 2) (1 / 4),
        Call.applyForce 3 4 5 6 20 (1 / 4) (5 / 2) (1 / 4),
        Call.computeField { addr := 4096, size := 3686400 } 1 1 1]] ∧
    IterationShape demoEnv
      [Call.applyForce 1 2 3 4 20 (1 / 4) (5 / 2) (1 / 4),
        Call.applyForce 3 4 5 6 20 (1 / 4) (5 / 2) (1 / 4),
        Call.computeField { addr := 4096, size := 3686400 } 1 1 1] := by
  have h : iterations demoEnv [{ now := 1, events := [Event.MouseButtonPressed Button.Left 1 2,
        Event.MouseMoved 3 4, Event.MouseMoved 5 6] }] =
      [[Call.applyForce 1 2 3 4 20 (1 / 4) (5 / 2) (1 / 4),
        Call.applyForce 3 4 5 6 20 (1 / 4) (5 / 2) (1 / 4),
        Call.computeField { addr := 4096, size := 3686400 } 1 1 1]] := by
    simp [iterations, mainLoop, frame, pollEvents, handleEvent, onMoved, onReleased, onPressed,
      onClosed, beginFrame, stepCalls, initLocals, demoEnv, random, pixels, toSizeT, mulInt32,
      wrapInt32, WINDOW_WIDTH, WINDOW_HEIGHT, VISCOSITY, DENSITY]
  exact ⟨h, (frame_forces_before_step demoEnv _).2 _ (by rw [h]; exact List.mem_singleton.2 rfl)⟩

/-- C6: when main handles a mouse move at (x, y) with down set, the applyForce
call it issues starts at the coordinates of the most recent left-button press or
mouse move polled before and ends at (x, y).  Hence, if the events polled before
end with a mouse move at (px, py) followed only by events that are neither
left-button presses nor mouse moves, the call starts at (px, py), the end point
of the call issued for that earlier move. -/
theorem force_endpoints (env : Env) (done : List Frame) (now : ℚ) (seen : List Event)
    (x y : Int) (ho : (localsAfter env done).isOpen = true)
    (hd : (localsAt env done now seen).down = true) :
    (∃ a R G B, lastAnchor (history done seen) = some a ∧
      (handleEvent env (localsAt env done now seen) (Event.MouseMoved x y)).2 =
        [Call.applyForce a.1 a.2 x y 20 R G B]) ∧
    (∀ hist mid px py, history done seen = hist ++ Event.MouseMoved px py :: mid →
      (∀ e ∈ mid, e.anchor = none) →
      ∃ R G B, (handleEvent env (localsAt env done now seen) (Event.MouseMoved x y)).2 =
        [Call.applyForce px py x y 20 R G B]) := by
  have hinv := (localsAt_dragInv env done now seen ho).2 hd
  have hcall : (handleEvent env (localsAt env done now seen) (Event.MouseMoved x y)).2 =
      [Call.applyForce (localsAt env done now seen).mousePos.1
        (localsAt env done now seen).mousePos.2 x y 20
        (colourFor (localsAt env done now seen).r).1
        (colourFor (localsAt env done now seen).r).2.1
        (colourFor (localsAt env done now seen).r).2.2] := by
    rw [handleEvent_moved, if_pos hd]
  refine ⟨⟨_, _, _, _, hinv, hcall⟩, ?_⟩
  intro hist mid px py hh hmid
  have h1 : lastAnchor (history done seen) = some (px, py) := by
    rw [hh, ← List.singleton_append, ← List.append_assoc,
      lastAnchor_append_of_none _ mid hmid, lastAnchor_snoc]
    rfl
  rw [hinv] at h1
  injection h1 with h1
  rw [hcall, h1]
  exact ⟨_, _, _, rfl⟩

/-- A drag over two iterations: the call for the second move starts where the
first move ended. -/
theorem force_endpoints_witness :
    (∃ a R G B, lastAnchor (history
        [{ now := 1, events := [Event.MouseButtonPressed Button.Left 1 2,
          Event.MouseMoved 3 4] }] [Event.Other]) = some a ∧
      (handleEvent demoEnv (localsAt demoEnv
          [{ now := 1, events := [Event.MouseButtonPressed Button.Left 1 2,
            Event.MouseMoved 3 4] }] 2 [Event.Other]) (Event.MouseMoved 5 6)).2 =
        [Call.applyForce a.1 a.2 5 6 20 R G B]) ∧
    ∃ R G B, (handleEvent demoEnv (localsAt demoEnv
          [{ now := 1, events := [Event.MouseButtonPressed Button.Left 1 2,
            Event.MouseMoved 3 4] }] 2 [Event.Other]) (Event.MouseMoved 5 6)).2 =
        [Call.applyForce 3 4 5 6 20 R G B] :=
  have h := force_endpoints demoEnv
    [{ now := 1, events := [Event.MouseButtonPressed Button.Left 1 2, Event.MouseMoved 3 4] }]
    2 [Event.Other] 5 6 (by decide) (by decide)
  ⟨h.1, h.2 [Event.MouseButtonPressed Button.Left 1 2] [Event.Other] 3 4 (by decide)
    (by decide)⟩

/-- C7: at every point of the event loop, down holds exactly when the most recent
event among the left-button presses and the button releases polled so far is a
left-button press.  A mouse move handled while down holds issues exactly one
call, an applyForce call of radius 20 ending at the move; a mouse move handled
while down does not hold, and an event of any other type, issue no call.  So a
move polled before any left-button press, or after a release that no
left-button press follows, issues no call. -/
theorem force_per_drag_move (env : Env) (done : List Frame) (now : ℚ) (seen : List Event)
    (ho : (localsAfter env done).isOpen = true) :
    (localsAt env done now seen).down = dragActive (history done seen) ∧
    (∀ x y, dragActive (history done seen) = true →
      ∃ x1 y1 R G B, (handleEvent env (localsAt env done now seen) (Event.MouseMoved x y)).2 =
        [Call.applyForce x1 y1 x y 20 R G B]) ∧
    (∀ x y, dragActive (history done seen) = false →
      (handleEvent env (localsAt env done now seen) (Event.MouseMoved x y)).2 = []) ∧
    (∀ e, (∀ x y, e ≠ Event.MouseMoved x y) →
      (handleEvent env (localsAt env done now seen) e).2 = []) ∧
    (∀ x y, (∀ e ∈ history done seen, e.isLeftPress = false) →
      (handleEvent env (localsAt env done now seen) (Event.MouseMoved x y)).2 = []) ∧
    (∀ x y hist post e, history done seen = hist ++ e :: post → e.isRelease = true →
      (∀ e1 ∈ post, e1.isLeftPress = false) →
      (handleEvent env (localsAt env done now seen) (Event.MouseMoved x y)).2 = []) := by
  have hinv := (localsAt_dragInv env done now seen ho).1
  have hup : ∀ x y, dragActive (history done seen) = false →
      (handleEvent env (localsAt env done now seen) (Event.MouseMoved x y)).2 = [] := by
    intro x y h
    rw [handleEvent_moved, hinv, h]
    rfl
  refine ⟨hinv, ?_, hup, ?_, ?_, ?_⟩
  · intro x y h
    rw [handleEvent_moved, hinv, h]
    exact ⟨_, _, _, _, _, rfl⟩
  · intro e he
    exact handleEvent_not_moved env _ e he
  · intro x y h
    exact hup x y (dragActive_of_no_press _ h)
  · intro x y hist post e hh he hpost
    exact hup x y (by rw [hh]; exact dragActive_after_release hist post e he hpost)

/-- A press, a move, a release and a move: down follows the events, the move
inside the drag issues one call and an event that is no move issues none. -/
theorem force_per_drag_move_witness :
    (localsAt demoEnv [{ now := 1, events := [Event.MouseMoved 0 0] }] 2
        [Event.MouseButtonPressed Button.Left 1 2]).down =
      dragActive (history [{ now := 1, events := [Event.MouseMoved 0 0] }]
        [Event.MouseButtonPressed Button.Left 1 2]) ∧
    (handleEvent demoEnv (localsAt demoEnv [{ now := 1, events := [Event.MouseMoved 0 0] }] 2
        [Event.MouseButtonPressed Button.Left 1 2]) (Event.MouseButtonReleased Button.Left 3 4)).2
      = [] ∧
    ∃ x1 y1 R G B, (handleEvent demoEnv (localsAt demoEnv
        [{ now := 1, events := [Event.MouseMoved 0 0] }] 2
        [Event.MouseButtonPressed Button.Left 1 2]) (Event.MouseMoved 3 4)).2 =
      [Call.applyForce x1 y1 3 4 20 R G B] :=
  have h := force_per_drag_move demoEnv [{ now := 1, events := [Event.MouseMoved 0 0] }] 2
    [Event.MouseButtonPressed Button.Left 1 2] (by decide)
  ⟨h.1, h.2.2.2.1 _ (by simp), h.2.1 3 4 (by decide)⟩

/-- C8 as stated fails: after a right-button press the iteration that polled it
issues no computeField call. -/
theorem step_every_frame_counterexample :
    iterations demoEnv [{ now := 1, events := [Event.MouseButtonPressed Button.Right 0 0] }]
        = [[]] ∧
      ¬ ∀ it ∈ iterations demoEnv
          [{ now := 1, events := [Event.MouseButtonPressed Button.Right 0 0] }],
        (it.filter Call.isComputeField).length = 1 := by
  have h : iterations demoEnv
      [{ now := 1, events := [Event.MouseButtonPressed Button.Right 0 0] }] = [[]] := by
    simp [iterations, mainLoop, frame, pollEvents, handleEvent, onMoved, onReleased, onPressed,
      onClosed, beginFrame, stepCalls, initLocals, demoEnv]
  refine ⟨h, fun hall => ?_⟩
  have := hall [] (by rw [h]; exact List.mem_singleton.2 rfl)
  simp at this

/-- C8, amended: an iteration of the main loop that runs after the iterations
done adds its calls to those of done, and its computeField calls are: none if
frozen holds once its events are handled, and otherwise exactly one, with
viscosity 1 and density 1.  Frozen holds exactly when the number of presses of a
button other than the left one polled so far is odd. -/
theorem step_once_unless_frozen (env : Env) (done : List Frame) (f : Frame)
    (ho : (localsAfter env done).isOpen = true) :
    iterations env (done ++ [f]) =
        iterations env done ++ [(frame env (localsAfter env done) f).2] ∧
      (frame env (localsAfter env done) f).2.filter Call.isComputeField =
        (if (localsAfter env (done ++ [f])).frozen then []
        else [Call.computeField (pixels env) (f.now - (localsAfter env done).start) 1 1]) ∧
      (localsAfter env (done ++ [f])).frozen = frozenBy (history (done ++ [f]) []) := by
  refine ⟨iterations_snoc env done f ho, ?_, ?_⟩
  · rw [localsAfter_snoc env done f ho]
    exact frame_step_filter env _ f
  · have h1 := mainLoop_frozen env (initLocals env) done ho
    rw [localsAfter_snoc env done f ho]
    simp only [frame, pollEvents_frozen, beginFrame]
    have h2 : (localsAfter env done).frozen = frozenBy (done.map Frame.events).flatten := by
      simpa [localsAfter, initLocals] using h1
    simp [h2, history, frozenBy_append, frozenBy]

/-- Two iterations: the first unfreezes nothing and steps once with dt = 1, the
second polls a right-button press and does not step. -/
theorem step_once_unless_frozen_witness :
    iterations demoEnv ([{ now := 1, events := [] }] ++
        [{ now := 3, events := [Event.MouseButtonPressed Button.Right 0 0] }]) =
      iterations demoEnv [{ now := 1, events := [] }] ++
        [(frame demoEnv (localsAfter demoEnv [{ now := 1, events := [] }])
          { now := 3, events := [Event.MouseButtonPressed Button.Right 0 0] }).2] ∧
    (frame demoEnv (localsAfter demoEnv [{ now := 1, events := [] }])
        { now := 3, events := [Event.MouseButtonPressed Button.Right 0 0] }).2.filter
          Call.isComputeField = [] :=
  have h := step_once_unless_frozen demoEnv [{ now := 1, events := [] }]
    { now := 3, events := [Event.MouseButtonPressed Button.Right 0 0] } (by decide)
  ⟨h.1, h.2.1.trans (if_pos (by decide))⟩

/-- C9: r is 0 when the event loop of an iteration starts, and at any later point
of that loop it is either still 0 or a value of random drawn at a left-button
press polled in the same iteration.  So a mouse move handled while down holds,
with no left-button press polled before it in its iteration, issues applyForce
with the colour (0.25, 2.5, 0.25); and a call with the colour (1.0, 0.1, 1.0) or
(0.5, 0.5, 0.5) is issued only after a left-button press of the same
iteration. -/
theorem colour_follows_press (env : Env) (done : List Frame) (now : ℚ) (seen : List Event)
    (x y : Int) (hd : (localsAt env done now seen).down = true) :
    (localsAt env done now []).r = 0 ∧
    ((localsAt env done now seen).r = 0 ∨
      ((∃ e ∈ seen, e.isLeftPress = true) ∧
        ∃ n, (localsAt env done now seen).r = random env.RAND_MAX (env.rand n))) ∧
    ((∀ e ∈ seen, e.isLeftPress = false) →
      (handleEvent env (localsAt env done now seen) (Event.MouseMoved x y)).2 =
        [Call.applyForce (localsAt env done now seen).mousePos.1
          (localsAt env done now seen).mousePos.2 x y 20 (1 / 4) (5 / 2) (1 / 4)]) ∧
    (∀ x1 y1 R G B,
      (handleEvent env (localsAt env done now seen) (Event.MouseMoved x y)).2 =
        [Call.applyForce x1 y1 x y 20 R G B] →
      (R, G, B) = (1, 1 / 10, 1) ∨ (R, G, B) = (1 / 2, 1 / 2, 1 / 2) →
      ∃ e ∈ seen, e.isLeftPress = true) := by
  have hr0 : (beginFrame (localsAfter env done) now).1.r = 0 := rfl
  have hdef : (∀ e ∈ seen, e.isLeftPress = false) →
      (handleEvent env (localsAt env done now seen) (Event.MouseMoved x y)).2 =
        [Call.applyForce (localsAt env done now seen).mousePos.1
          (localsAt env done now seen).mousePos.2 x y 20 (1 / 4) (5 / 2) (1 / 4)] := by
    intro hno
    have hr : (localsAt env done now seen).r = 0 := by
      unfold localsAt
      rw [pollEvents_r env _ seen hno, hr0]
    rw [handleEvent_moved, if_pos hd, hr]
    simp [colourFor]
  refine ⟨hr0, ?_, hdef, ?_⟩
  · have := pollEvents_r_drawn env (beginFrame (localsAfter env done) now).1 seen
    rw [hr0] at this
    exact this
  · intro x1 y1 R G B hcall hcol
    by_contra hne
    have hno : ∀ e ∈ seen, e.isLeftPress = false := by
      intro e he
      cases hl : e.isLeftPress
      · rfl
      · exact absurd ⟨e, he, hl⟩ hne
    rw [hdef hno] at hcall
    injection hcall with hc _
    injection hc with _ _ _ _ _ hR hG hB
    subst hR hG hB
    rcases hcol with h | h <;> simp only [Prod.mk.injEq] at h <;> norm_num at h

/-- A drag that started in the first iteration and goes on in the second: the
move of the second iteration gets the colour (0.25, 2.5, 0.25). -/
theorem colour_follows_press_witness :
    (handleEvent demoEnv
        (localsAt demoEnv [{ now := 1, events := [Event.MouseButtonPressed Button.Left 1 2] }]
          2 [Event.Other]) (Event.MouseMoved 3 4)).2 =
      [Call.applyForce
        (localsAt demoEnv [{ now := 1, events := [Event.MouseButtonPressed Button.Left 1 2] }]
          2 [Event.Other]).mousePos.1
        (localsAt demoEnv [{ now := 1, events := [Event.MouseButtonPressed Button.Left 1 2] }]
          2 [Event.Other]).mousePos.2 3 4 20 (1 / 4) (5 / 2) (1 / 4)] :=
  (colour_follows_press demoEnv
    [{ now := 1, events := [Event.MouseButtonPressed Button.Left 1 2] }] 2 [Event.Other] 3 4
    (by decide)).2.2.1 (by decide)

/-- C10: when an iteration starts, start holds the clock reading of the previous
iteration (the reading of line 38 for the first iteration), whether or not
frozen was set in between, and after the iteration it holds the reading of that
iteration.  Every computeField call of the iteration has as dt the difference
of its reading and the previous one, which is not negative if the readings do
not decrease; and the iteration issues that call if frozen does not hold after
its events. -/
theorem step_dt (env : Env) (done : List Frame) (f : Frame)
    (ho : (localsAfter env done).isOpen = true) :
    (localsAfter env done).start = prevReading env done ∧
    (localsAfter env (done ++ [f])).start = f.now ∧
    (∀ result dt v d,
      Call.computeField result dt v d ∈ (frame env (localsAfter env done) f).2 →
        dt = f.now - prevReading env done ∧ (prevReading env done ≤ f.now → 0 ≤ dt)) ∧
    ((localsAfter env (done ++ [f])).frozen = false →
      Call.computeField (pixels env) (f.now - prevReading env done) VISCOSITY DENSITY ∈
        (frame env (localsAfter env done) f).2) := by
  have hs := localsAfter_start env done ho
  have hfilter := frame_step_filter env (localsAfter env done) f
  rw [← localsAfter_snoc env done f ho, hs] at hfilter
  refine ⟨hs, ?_, ?_, ?_⟩
  · rw [localsAfter_snoc env done f ho]
    simp [frame, pollEvents_start, beginFrame]
  · intro result dt v d hm
    have hm2 : Call.computeField result dt v d ∈
        (frame env (localsAfter env done) f).2.filter Call.isComputeField :=
      List.mem_filter.2 ⟨hm, rfl⟩
    rw [hfilter] at hm2
    split at hm2
    · simp at hm2
    · rw [List.mem_singleton] at hm2
      injection hm2 with _ h2 _ _
      subst h2
      exact ⟨rfl, fun h => sub_nonneg.2 h⟩
  · intro hfz
    rw [hfz] at hfilter
    have : Call.computeField (pixels env) (f.now - prevReading env done) VISCOSITY DENSITY ∈
        (frame env (localsAfter env done) f).2.filter Call.isComputeField := by
      rw [hfilter]
      simp
    exact (List.mem_filter.1 this).1

/-- A run frozen at reading 1 and unfrozen at reading 6, with an iteration at
reading 5 in between: the step of the iteration at 6 gets dt = 6 - 5. -/
theorem step_dt_witness :
    prevReading demoEnv [{ now := 1, events := [Event.MouseButtonPressed Button.Right 0 0] },
        { now := 5, events := [] }] = 5 ∧
    Call.computeField (pixels demoEnv)
        (6 - prevReading demoEnv
          [{ now := 1, events := [Event.MouseButtonPressed Button.Right 0 0] },
            { now := 5, events := [] }]) VISCOSITY DENSITY ∈
      (frame demoEnv (localsAfter demoEnv
          [{ now := 1, events := [Event.MouseButtonPressed Button.Right 0 0] },
            { now := 5, events := [] }])
        { now := 6, events := [Event.MouseButtonPressed Button.Middle 0 0] }).2 :=
  ⟨by simp [prevReading],
    (step_dt demoEnv
      [{ now := 1, events := [Event.MouseButtonPressed Button.Right 0 0] },
        { now := 5, events := [] }]
      { now := 6, events := [Event.MouseButtonPressed Button.Middle 0 0] }
      (by decide)).2.2.2 (by decide)⟩

end Fluids
